import Mathlib

/-!
Shallow embedding of the coin-counting core of `bot.py`
(money-photo-counter-bot): the IoU geometry utility `calculate_iou`,
the overlap-resolving counting loop `draw_detections`, and the pure
post-inference logic of `handle_photo` (caption parsing, totals,
per-denomination listing, optional estimate).

Numeric modelling: Python floats are embedded as rationals (`ℚ`); all
arithmetic in the source is exact on the inputs considered, so the
spec's floating tolerances collapse to exact equality.  Python
exceptions (`ZeroDivisionError` from `inter_area / union_area`,
`ValueError` from `float(detection["class"])`) are embedded as
`Option`/`Except` error values, since an exception escapes the
function and is caught only by the request-level handler.
-/

/-- A raw detection record as delivered by the detector.  The dict key
`class` of the source is embedded as `cls : Option ℚ`: `some c` when
`float(detection["class"])` succeeds with value `c`, `none` when the
string is unparsable and the call raises `ValueError`.  `confidence`
is carried along (it is used only for display in the source). -/
structure Detection where
  x : ℚ
  y : ℚ
  width : ℚ
  height : ℚ
  cls : Option ℚ
  confidence : ℚ
deriving DecidableEq, Repr

/-- Corner-form bounding box `[x1, y1, x2, y2]`, the list
`[x, y, x + width, y + height]` built in `draw_detections`. -/
structure Box where
  x1 : ℚ
  y1 : ℚ
  x2 : ℚ
  y2 : ℚ
deriving DecidableEq, Repr

/-- The corner-form box of a detection:
`x = detection["x"] - width/2`, `y = detection["y"] - height/2`,
`box = [x, y, x + width, y + height]`. -/
def detBox (d : Detection) : Box :=
  let x := d.x - d.width / 2
  let y := d.y - d.height / 2
  ⟨x, y, x + d.width, y + d.height⟩

/-- Width of the intersection: `max(0, min(x2, x4) - max(x1, x3))`. -/
def interW (b1 b2 : Box) : ℚ :=
  max 0 (min b1.x2 b2.x2 - max b1.x1 b2.x1)

/-- Height of the intersection: `max(0, min(y2, y4) - max(y1, y3))`. -/
def interH (b1 b2 : Box) : ℚ :=
  max 0 (min b1.y2 b2.y2 - max b1.y1 b2.y1)

/-- `inter_area` of `calculate_iou`. -/
def inter_area (b1 b2 : Box) : ℚ :=
  interW b1 b2 * interH b1 b2

/-- `box1_area` / `box2_area` of `calculate_iou`: `(x2 - x1) * (y2 - y1)`
(negative for an inverted box, zero for a degenerate one). -/
def boxArea (b : Box) : ℚ :=
  (b.x2 - b.x1) * (b.y2 - b.y1)

/-- `union_area = box1_area + box2_area - inter_area`. -/
def union_area (b1 b2 : Box) : ℚ :=
  boxArea b1 + boxArea b2 - inter_area b1 b2

/-- `calculate_iou(box1, box2)`: `inter_area / union_area`, with no
guard on the divisor.  Python raises `ZeroDivisionError` when
`union_area == 0.0`; that exceptional outcome is embedded as `none`. -/
def calculate_iou (box1 box2 : Box) : Option ℚ :=
  if union_area box1 box2 = 0 then none
  else some (inter_area box1 box2 / union_area box1 box2)

/-- Errors that can escape the counting loop: `ZeroDivisionError` from
`calculate_iou`, `ValueError` from `float(detection["class"])`. -/
inductive BotError where
  | zeroDivision
  | valueError
deriving DecidableEq, Repr

/-- The inner loop of `draw_detections`:
`for detected_box in detected_boxes: iou = calculate_iou(box, detected_box);
if iou > 0.5: overlap = True; break`.  Returns the final `overlap` flag,
or the error if a `calculate_iou` call raises before the loop settles. -/
def checkOverlap (box : Box) : List Box → Except BotError Bool
  | [] => .ok false
  | b :: bs =>
    match calculate_iou box b with
    | none => .error .zeroDivision
    | some iou => if iou > 1/2 then .ok true else checkOverlap box bs

/-- `coin_counts` update: `if value in coin_counts: coin_counts[value] += 1
else: coin_counts[value] = 1`.  A Python dict keyed by the value, in
insertion order, embedded as an association list. -/
def updateCounts (value : ℚ) : List (ℚ × ℕ) → List (ℚ × ℕ)
  | [] => [(value, 1)]
  | (v, c) :: rest =>
    if v = value then (v, c + 1) :: rest else (v, c) :: updateCounts value rest

/-- The mutable loop state of `draw_detections`: `total_coins`,
`detected_boxes`, `coin_counts`. -/
structure DrawState where
  total_coins : ℕ
  detected_boxes : List Box
  coin_counts : List (ℚ × ℕ)
deriving DecidableEq, Repr

/-- One iteration of the `for idx, detection in enumerate(detections)`
loop: build the corner box, scan the accepted boxes for an overlap,
and if none is found parse the class (`float(detection["class"]) / 100`,
which raises `ValueError` on an unparsable string), append the box,
bump `total_coins` and update `coin_counts`.  The drawing calls are
pure image side effects and do not touch the state. -/
def drawStep (s : DrawState) (d : Detection) : Except BotError DrawState :=
  match checkOverlap (detBox d) s.detected_boxes with
  | .error e => .error e
  | .ok true => .ok s
  | .ok false =>
    match d.cls with
    | none => .error .valueError
    | some cents =>
      .ok ⟨s.total_coins + 1,
           s.detected_boxes ++ [detBox d],
           updateCounts (cents / 100) s.coin_counts⟩

/-- The whole detection loop, folded over the input list in order. -/
def drawLoop (s : DrawState) : List Detection → Except BotError DrawState
  | [] => .ok s
  | d :: ds =>
    match drawStep s d with
    | .error e => .error e
    | .ok s' => drawLoop s' ds

/-- `draw_detections(image_path, detections)`: runs the loop from the
empty state and returns `(total_coins, coin_counts)`. -/
def draw_detections (detections : List Detection) :
    Except BotError (ℕ × List (ℚ × ℕ)) :=
  match drawLoop ⟨0, [], []⟩ detections with
  | .error e => .error e
  | .ok s => .ok (s.total_coins, s.coin_counts)

/-- Line 72 of the source:
`total_value = sum([float(detection["class"]) / 100 for detection in detections])`,
summed over ALL raw detections (not the accepted ones); the first
unparsable class string raises `ValueError`. -/
def rawTotalValue : List Detection → Except BotError ℚ
  | [] => .ok 0
  | d :: ds =>
    match d.cls with
    | none => .error .valueError
    | some c =>
      match rawTotalValue ds with
      | .error e => .error e
      | .ok t => .ok (c / 100 + t)

/-- Outcome of `float(caption.strip())` on the photo caption:
no caption (or a falsy empty one), a caption that raises `ValueError`,
or a caption that parses to a numeric value. -/
inductive Caption where
  | noCaption
  | unparsable
  | parsed (v : ℚ)
deriving DecidableEq, Repr

/-- Descending lexicographic order on `(value, count)` items: what
`sorted(coin_counts.items(), reverse=True)` sorts by. -/
def descLex (p q : ℚ × ℕ) : Prop :=
  q.1 < p.1 ∨ (p.1 = q.1 ∧ q.2 ≤ p.2)

instance : DecidableRel descLex := fun p q => by
  unfold descLex; infer_instance

instance : IsTotal (ℚ × ℕ) descLex where
  total p q := by
    rcases lt_trichotomy p.1 q.1 with h | h | h
    · exact Or.inr (Or.inl h)
    · rcases le_total q.2 p.2 with h2 | h2
      · exact Or.inl (Or.inr ⟨h, h2⟩)
      · exact Or.inr (Or.inr ⟨h.symm, h2⟩)
    · exact Or.inl (Or.inl h)

instance : IsTrans (ℚ × ℕ) descLex where
  trans p q r hpq hqr := by
    rcases hpq with h1 | ⟨h1, h1'⟩ <;> rcases hqr with h2 | ⟨h2, h2'⟩
    · exact Or.inl (h2.trans h1)
    · exact Or.inl (h2 ▸ h1)
    · exact Or.inl (h1 ▸ h2)
    · exact Or.inr ⟨h1.trans h2, h2'.trans h1'⟩

instance : IsAntisymm (ℚ × ℕ) descLex where
  antisymm p q hpq hqp := by
    rcases hpq with h1 | ⟨h1, h1'⟩ <;> rcases hqp with h2 | ⟨h2, h2'⟩
    · exact absurd (h1.trans h2) (lt_irrefl _)
    · exact absurd (h2 ▸ h1) (lt_irrefl _)
    · exact absurd (h1 ▸ h2) (lt_irrefl _)
    · exact Prod.ext h1 (le_antisymm h2' h1')

/-- The display order of `sorted(coin_counts.items(), reverse=True)`:
items sorted descending.  The keys of `coin_counts` are distinct and
`descLex` is a total antisymmetric order, so any correct sort (Python's
timsort included) produces this unique sorted permutation. -/
def sortDesc (l : List (ℚ × ℕ)) : List (ℚ × ℕ) :=
  l.insertionSort descLex

/-- The detector-derived part of a successful reply: the reported
total value, coin count, the per-denomination listing in display
order, and the optional estimate from a declared uniform value. -/
structure Results where
  total_value : ℚ
  total_coins : ℕ
  coin_listing : List (ℚ × ℕ)
  estimate : Option ℚ
deriving DecidableEq, Repr

/-- The observable outcome of one photo request: whether the invalid
caption warning was sent, and the results message (`none` when the
request fell into the generic error handler and reported nothing). -/
structure Reply where
  warning : Bool
  results : Option Results
deriving DecidableEq, Repr

/-- The pure post-inference logic of `handle_photo`, given the caption
parse outcome and the detection list returned by the detector:
caption handling (warning on `ValueError`, `custom_value` otherwise),
`draw_detections`, the line-72 total over all raw detections, the
descending per-denomination listing, and the estimate appended only
when `custom_value` is truthy (`if custom_value:`, so `None` and `0.0`
both suppress it).  Any exception from the counting or the total is
caught by the request-level `except` and yields a reply with no
results. -/
def handle_photo (caption : Caption) (detections : List Detection) : Reply :=
  let warning : Bool := match caption with | .unparsable => true | _ => false
  let custom_value : Option ℚ := match caption with | .parsed v => some v | _ => none
  match draw_detections detections, rawTotalValue detections with
  | .ok (tc, cc), .ok tv =>
    ⟨warning, some ⟨tv, tc, sortDesc cc,
      match custom_value with
      | some v => if v = 0 then none else some ((tc : ℚ) * v)
      | none => none⟩⟩
  | _, _ => ⟨warning, none⟩

/-- Sum of the per-denomination counts. -/
def countsSum (l : List (ℚ × ℕ)) : ℕ :=
  (l.map Prod.snd).sum

/-- Monetary value of a counts listing: `Σ value * count`. -/
def countsValue (l : List (ℚ × ℕ)) : ℚ :=
  (l.map (fun p => p.1 * (p.2 : ℚ))).sum

/-- The estimate field actually delivered by a reply, if any. -/
def reportedEstimate (r : Reply) : Option ℚ :=
  match r.results with
  | none => none
  | some res => res.estimate

/- Concrete inputs used by the evaluation theorems. -/

/-- First detection of the spec §8 concrete scenario. -/
def scn1 : Detection := ⟨100, 100, 40, 40, some 100, 9/10⟩

/-- Second detection of the spec §8 concrete scenario (the duplicate). -/
def scn2 : Detection := ⟨102, 101, 40, 40, some 100, 8/10⟩

/-- Third detection of the spec §8 concrete scenario. -/
def scn3 : Detection := ⟨300, 300, 40, 40, some 200, 95/100⟩

/-- The spec §8 concrete three-detection scenario. -/
def scenario : List Detection := [scn1, scn2, scn3]

/-- A detection whose class string does not parse. -/
def dBad : Detection := ⟨10, 10, 4, 4, none, 1/2⟩

/-- A well-formed detection far from `dBad`. -/
def dGood : Detection := ⟨100, 100, 4, 4, some 100, 1/2⟩

/-- A detection with a negative width (non-positive extent). -/
def dNeg : Detection := ⟨10, 10, -2, 3, some 100, 1/2⟩

/-- A well-formed unit detection used for the identical-pair check. -/
def dUnit : Detection := ⟨50, 50, 40, 40, some 100, 9/10⟩

/-- Chain detection A: box `[0, 0, 8, 1]`. -/
def dA : Detection := ⟨4, 1/2, 8, 1, some 100, 1/2⟩

/-- Chain detection B: box `[2, 0, 10, 1]`. -/
def dB : Detection := ⟨6, 1/2, 8, 1, some 100, 1/2⟩

/-- Chain detection C: box `[4, 0, 12, 1]`. -/
def dC : Detection := ⟨8, 1/2, 8, 1, some 100, 1/2⟩

/-- Box of `dA`. -/
def boxA : Box := ⟨0, 0, 8, 1⟩

/-- Box of `dB`. -/
def boxB : Box := ⟨2, 0, 10, 1⟩

/-- Box of `dC`. -/
def boxC : Box := ⟨4, 0, 12, 1⟩

/-! ## Helper lemmas -/

theorem interW_nonneg (b1 b2 : Box) : 0 ≤ interW b1 b2 :=
  le_max_left _ _

theorem interH_nonneg (b1 b2 : Box) : 0 ≤ interH b1 b2 :=
  le_max_left _ _

theorem inter_area_nonneg (b1 b2 : Box) : 0 ≤ inter_area b1 b2 :=
  mul_nonneg (interW_nonneg b1 b2) (interH_nonneg b1 b2)

theorem interW_comm (b1 b2 : Box) : interW b1 b2 = interW b2 b1 := by
  unfold interW; rw [min_comm b1.x2 b2.x2, max_comm b1.x1 b2.x1]

theorem interH_comm (b1 b2 : Box) : interH b1 b2 = interH b2 b1 := by
  unfold interH; rw [min_comm b1.y2 b2.y2, max_comm b1.y1 b2.y1]

theorem inter_area_comm (b1 b2 : Box) : inter_area b1 b2 = inter_area b2 b1 := by
  unfold inter_area; rw [interW_comm, interH_comm]

theorem interW_pos_proper {b1 b2 : Box} (h : 0 < interW b1 b2) :
    b1.x1 < b1.x2 ∧ b2.x1 < b2.x2 := by
  unfold interW at h
  have ht : 0 < min b1.x2 b2.x2 - max b1.x1 b2.x1 := by
    by_contra hle
    push_neg at hle
    rw [max_eq_left hle] at h
    exact lt_irrefl 0 h
  constructor
  · have h1 := min_le_left b1.x2 b2.x2
    have h2 := le_max_left b1.x1 b2.x1
    linarith
  · have h1 := min_le_right b1.x2 b2.x2
    have h2 := le_max_right b1.x1 b2.x1
    linarith

theorem interH_pos_proper {b1 b2 : Box} (h : 0 < interH b1 b2) :
    b1.y1 < b1.y2 ∧ b2.y1 < b2.y2 := by
  unfold interH at h
  have ht : 0 < min b1.y2 b2.y2 - max b1.y1 b2.y1 := by
    by_contra hle
    push_neg at hle
    rw [max_eq_left hle] at h
    exact lt_irrefl 0 h
  constructor
  · have h1 := min_le_left b1.y2 b2.y2
    have h2 := le_max_left b1.y1 b2.y1
    linarith
  · have h1 := min_le_right b1.y2 b2.y2
    have h2 := le_max_right b1.y1 b2.y1
    linarith

theorem inter_pos_parts {b1 b2 : Box} (h : 0 < inter_area b1 b2) :
    0 < interW b1 b2 ∧ 0 < interH b1 b2 := by
  unfold inter_area at h
  constructor
  · rcases (interW_nonneg b1 b2).lt_or_eq with hw | hw
    · exact hw
    · rw [← hw, zero_mul] at h; exact absurd h (lt_irrefl 0)
  · rcases (interH_nonneg b1 b2).lt_or_eq with hh | hh
    · exact hh
    · rw [← hh, mul_zero] at h; exact absurd h (lt_irrefl 0)

theorem interW_le_left (b1 b2 : Box) (h : b1.x1 ≤ b1.x2) :
    interW b1 b2 ≤ b1.x2 - b1.x1 := by
  unfold interW
  apply max_le
  · linarith
  · have h1 := min_le_left b1.x2 b2.x2
    have h2 := le_max_left b1.x1 b2.x1
    linarith

theorem interH_le_left (b1 b2 : Box) (h : b1.y1 ≤ b1.y2) :
    interH b1 b2 ≤ b1.y2 - b1.y1 := by
  unfold interH
  apply max_le
  · linarith
  · have h1 := min_le_left b1.y2 b2.y2
    have h2 := le_max_left b1.y1 b2.y1
    linarith

theorem interW_le_right (b1 b2 : Box) (h : b2.x1 ≤ b2.x2) :
    interW b1 b2 ≤ b2.x2 - b2.x1 := by
  rw [interW_comm]; exact interW_le_left b2 b1 h

theorem interH_le_right (b1 b2 : Box) (h : b2.y1 ≤ b2.y2) :
    interH b1 b2 ≤ b2.y2 - b2.y1 := by
  rw [interH_comm]; exact interH_le_left b2 b1 h

theorem inter_le_area_left (b1 b2 : Box) (hx : b1.x1 ≤ b1.x2) (hy : b1.y1 ≤ b1.y2) :
    inter_area b1 b2 ≤ boxArea b1 := by
  unfold inter_area boxArea
  apply mul_le_mul (interW_le_left b1 b2 hx) (interH_le_left b1 b2 hy)
    (interH_nonneg b1 b2)
  linarith

theorem inter_le_area_right (b1 b2 : Box) (hx : b2.x1 ≤ b2.x2) (hy : b2.y1 ≤ b2.y2) :
    inter_area b1 b2 ≤ boxArea b2 := by
  rw [inter_area_comm]; exact inter_le_area_left b2 b1 hx hy

theorem iou_eq_of_some {b1 b2 : Box} {q : ℚ} (h : calculate_iou b1 b2 = some q) :
    union_area b1 b2 ≠ 0 ∧ inter_area b1 b2 = q * union_area b1 b2 := by
  unfold calculate_iou at h
  by_cases hu : union_area b1 b2 = 0
  · rw [if_pos hu] at h; exact absurd h (by simp)
  · rw [if_neg hu] at h
    refine ⟨hu, ?_⟩
    have := Option.some_injective ℚ h
    rw [← this]
    field_simp

theorem iou_self_proper {b : Box} (hx : b.x1 < b.x2) (hy : b.y1 < b.y2) :
    calculate_iou b b = some 1 := by
  have hw : interW b b = b.x2 - b.x1 := by
    unfold interW
    rw [min_self, max_self]
    exact max_eq_right (by linarith)
  have hh : interH b b = b.y2 - b.y1 := by
    unfold interH
    rw [min_self, max_self]
    exact max_eq_right (by linarith)
  have hi : inter_area b b = boxArea b := by
    unfold inter_area boxArea; rw [hw, hh]
  have hA : 0 < boxArea b := mul_pos (by linarith) (by linarith)
  have hu : union_area b b = boxArea b := by
    unfold union_area; rw [hi]; ring
  unfold calculate_iou
  rw [hu, hi, if_neg (ne_of_gt hA), div_self (ne_of_gt hA)]

theorem checkOverlap_iff {box : Box} {bs : List Box} {ov : Bool}
    (h : checkOverlap box bs = .ok ov) :
    ov = true ↔ ∃ b ∈ bs, ∃ q, calculate_iou box b = some q ∧ 1/2 < q := by
  induction bs generalizing ov with
  | nil =>
    simp only [checkOverlap] at h
    injection h with h
    subst h
    simp
  | cons b bs ih =>
    simp only [checkOverlap] at h
    cases hio : calculate_iou box b with
    | none => rw [hio] at h; exact absurd h (by simp)
    | some q =>
      rw [hio] at h
      simp only at h
      by_cases hq : q > 1/2
      · rw [if_pos hq] at h
        injection h with h
        subst h
        simp only [true_iff]
        exact ⟨b, by simp, q, hio, hq⟩
      · rw [if_neg hq] at h
        rw [ih h]
        constructor
        · rintro ⟨b', hb', q', hio', hq'⟩
          exact ⟨b', by simp [hb'], q', hio', hq'⟩
        · rintro ⟨b', hb', q', hio', hq'⟩
          rcases List.mem_cons.mp hb' with hb' | hb'
          · subst hb'
            rw [hio] at hio'
            injection hio' with hio'
            subst hio'
            exact absurd hq' hq
          · exact ⟨b', hb', q', hio', hq'⟩

theorem checkOverlap_false_mem {box : Box} {bs : List Box}
    (h : checkOverlap box bs = .ok false) :
    ∀ b ∈ bs, ∃ q, calculate_iou box b = some q ∧ q ≤ 1/2 := by
  induction bs with
  | nil => intro b hb; exact absurd hb (by simp)
  | cons b' bs ih =>
    simp only [checkOverlap] at h
    cases hio : calculate_iou box b' with
    | none => rw [hio] at h; exact absurd h (by simp)
    | some q =>
      rw [hio] at h
      simp only at h
      by_cases hq : q > 1/2
      · rw [if_pos hq] at h
        exact absurd h (by simp)
      · rw [if_neg hq] at h
        intro b hb
        rcases List.mem_cons.mp hb with hb | hb
        · subst hb
          exact ⟨q, hio, le_of_not_lt hq⟩
        · exact ih h b hb

theorem countsSum_updateCounts (v : ℚ) (l : List (ℚ × ℕ)) :
    countsSum (updateCounts v l) = countsSum l + 1 := by
  induction l with
  | nil => simp [updateCounts, countsSum]
  | cons p rest ih =>
    obtain ⟨w, c⟩ := p
    unfold updateCounts
    by_cases hw : w = v
    · rw [if_pos hw]
      simp [countsSum]
      omega
    · rw [if_neg hw]
      simp only [countsSum, List.map_cons, List.sum_cons] at ih ⊢
      omega

theorem drawStep_sum {s s' : DrawState} {d : Detection}
    (h : drawStep s d = .ok s')
    (hs : countsSum s.coin_counts = s.total_coins) :
    countsSum s'.coin_counts = s'.total_coins := by
  unfold drawStep at h
  cases hov : checkOverlap (detBox d) s.detected_boxes with
  | error e => rw [hov] at h; exact absurd h (by simp)
  | ok b =>
    rw [hov] at h
    cases b with
    | true =>
      simp only at h
      injection h with h
      subst h
      exact hs
    | false =>
      simp only at h
      cases hc : d.cls with
      | none => rw [hc] at h; exact absurd h (by simp)
      | some cents =>
        rw [hc] at h
        injection h with h
        subst h
        simp only [countsSum_updateCounts, hs]

theorem drawLoop_sum {s s' : DrawState} {ds : List Detection}
    (h : drawLoop s ds = .ok s')
    (hs : countsSum s.coin_counts = s.total_coins) :
    countsSum s'.coin_counts = s'.total_coins := by
  induction ds generalizing s with
  | nil =>
    simp only [drawLoop] at h
    injection h with h
    subst h
    exact hs
  | cons d ds ih =>
    simp only [drawLoop] at h
    cases hstep : drawStep s d with
    | error e => rw [hstep] at h; exact absurd h (by simp)
    | ok s1 =>
      rw [hstep] at h
      exact ih h (drawStep_sum hstep hs)

theorem detBox_proper_x {d : Detection} (h : 0 < d.width) :
    (detBox d).x1 < (detBox d).x2 := by
  simp only [detBox]
  linarith

theorem detBox_proper_y {d : Detection} (h : 0 < d.height) :
    (detBox d).y1 < (detBox d).y2 := by
  simp only [detBox]
  linarith

theorem rawTotalValue_error {ds : List Detection}
    (h : ∃ d ∈ ds, d.cls = none) : rawTotalValue ds = .error .valueError := by
  induction ds with
  | nil => obtain ⟨d, hd, _⟩ := h; exact absurd hd (by simp)
  | cons d ds ih =>
    obtain ⟨d', hd', hcls⟩ := h
    rcases List.mem_cons.mp hd' with hd' | hd'
    · subst hd'
      simp only [rawTotalValue, hcls]
    · simp only [rawTotalValue]
      cases hc : d.cls with
      | none => simp
      | some c =>
        rw [ih ⟨d', hd', hcls⟩]

theorem handle_photo_ok {dets : List Detection} {tc : ℕ} {cc : List (ℚ × ℕ)} {tv : ℚ}
    (cap : Caption)
    (hdraw : draw_detections dets = .ok (tc, cc))
    (hraw : rawTotalValue dets = .ok tv) :
    handle_photo cap dets =
      ⟨(match cap with | .unparsable => true | _ => false),
       some ⟨tv, tc, sortDesc cc,
         (match cap with
          | .parsed v => if v = 0 then none else some ((tc : ℚ) * v)
          | _ => none)⟩⟩ := by
  unfold handle_photo
  rw [hdraw, hraw]
  cases cap <;> simp

theorem handle_photo_error {dets : List Detection} (cap : Caption)
    (h : rawTotalValue dets = .error .valueError) :
    (handle_photo cap dets).results = none := by
  unfold handle_photo
  rw [h]
  cases hdraw : draw_detections dets with
  | error e => simp
  | ok p => obtain ⟨tc, cc⟩ := p; simp

theorem drawLoop_pairwise {s s' : DrawState} {ds : List Detection}
    (h : drawLoop s ds = .ok s')
    (hs : s.detected_boxes.Pairwise
      (fun e l => ∃ q, calculate_iou l e = some q ∧ q ≤ 1/2)) :
    s'.detected_boxes.Pairwise
      (fun e l => ∃ q, calculate_iou l e = some q ∧ q ≤ 1/2) := by
  induction ds generalizing s with
  | nil =>
    simp only [drawLoop] at h
    injection h with h
    subst h
    exact hs
  | cons d ds ih =>
    simp only [drawLoop] at h
    cases hstep : drawStep s d with
    | error e => rw [hstep] at h; exact absurd h (by simp)
    | ok s1 =>
      rw [hstep] at h
      apply ih h
      unfold drawStep at hstep
      cases hov : checkOverlap (detBox d) s.detected_boxes with
      | error e => rw [hov] at hstep; exact absurd hstep (by simp)
      | ok b =>
        rw [hov] at hstep
        cases b with
        | true =>
          simp only at hstep
          injection hstep with hstep
          subst hstep
          exact hs
        | false =>
          simp only at hstep
          cases hc : d.cls with
          | none => rw [hc] at hstep; exact absurd hstep (by simp)
          | some cents =>
            rw [hc] at hstep
            injection hstep with hstep
            subst hstep
            apply List.pairwise_append.mpr
            refine ⟨hs, by simp, ?_⟩
            intro e he l hl
            simp only [List.mem_singleton] at hl
            subst hl
            exact checkOverlap_false_mem hov e he

theorem interW_eq_of_pos {b1 b2 : Box} (h : 0 < interW b1 b2) :
    interW b1 b2 = min b1.x2 b2.x2 - max b1.x1 b2.x1 := by
  unfold interW at h ⊢
  rcases le_or_lt (min b1.x2 b2.x2 - max b1.x1 b2.x1) 0 with ht | ht
  · rw [max_eq_left ht] at h; exact absurd h (lt_irrefl 0)
  · exact max_eq_right (le_of_lt ht)

theorem interH_eq_of_pos {b1 b2 : Box} (h : 0 < interH b1 b2) :
    interH b1 b2 = min b1.y2 b2.y2 - max b1.y1 b2.y1 := by
  unfold interH at h ⊢
  rcases le_or_lt (min b1.y2 b2.y2 - max b1.y1 b2.y1) 0 with ht | ht
  · rw [max_eq_left ht] at h; exact absurd h (lt_irrefl 0)
  · exact max_eq_right (le_of_lt ht)

theorem seg_sum_le (lA rA lB rB lC rC : ℚ) (hAC : rA ≤ lC) :
    (min rA rB - max lA lB) + (min rC rB - max lC lB) ≤ rB - lB := by
  have h1 := min_le_left rA rB
  have h2 := le_max_right lA lB
  have h3 := min_le_right rC rB
  have h4 := le_max_left lC lB
  linarith

theorem inter_sum_le_of_sep_x {A B C : Box} (hsep : A.x2 ≤ C.x1)
    (hBy : B.y1 ≤ B.y2)
    (hA : 0 < inter_area A B) (hC : 0 < inter_area C B) :
    inter_area A B + inter_area C B ≤ boxArea B := by
  obtain ⟨hwA, hhA⟩ := inter_pos_parts hA
  obtain ⟨hwC, hhC⟩ := inter_pos_parts hC
  have hW : interW A B + interW C B ≤ B.x2 - B.x1 := by
    rw [interW_eq_of_pos hwA, interW_eq_of_pos hwC]
    exact seg_sum_le A.x1 A.x2 B.x1 B.x2 C.x1 C.x2 hsep
  have hHA : interH A B ≤ B.y2 - B.y1 := interH_le_right A B hBy
  have hHC : interH C B ≤ B.y2 - B.y1 := interH_le_right C B hBy
  have h1 : inter_area A B ≤ interW A B * (B.y2 - B.y1) :=
    mul_le_mul_of_nonneg_left hHA (interW_nonneg A B)
  have h2 : inter_area C B ≤ interW C B * (B.y2 - B.y1) :=
    mul_le_mul_of_nonneg_left hHC (interW_nonneg C B)
  have h3 : interW A B * (B.y2 - B.y1) + interW C B * (B.y2 - B.y1) ≤
      (B.x2 - B.x1) * (B.y2 - B.y1) := by
    rw [← add_mul]
    exact mul_le_mul_of_nonneg_right hW (by linarith)
  unfold boxArea
  linarith

theorem inter_sum_le_of_sep_y {A B C : Box} (hsep : A.y2 ≤ C.y1)
    (hBx : B.x1 ≤ B.x2)
    (hA : 0 < inter_area A B) (hC : 0 < inter_area C B) :
    inter_area A B + inter_area C B ≤ boxArea B := by
  obtain ⟨hwA, hhA⟩ := inter_pos_parts hA
  obtain ⟨hwC, hhC⟩ := inter_pos_parts hC
  have hH : interH A B + interH C B ≤ B.y2 - B.y1 := by
    rw [interH_eq_of_pos hhA, interH_eq_of_pos hhC]
    exact seg_sum_le A.y1 A.y2 B.y1 B.y2 C.y1 C.y2 hsep
  have hWA : interW A B ≤ B.x2 - B.x1 := interW_le_right A B hBx
  have hWC : interW C B ≤ B.x2 - B.x1 := interW_le_right C B hBx
  have h1 : inter_area A B ≤ (B.x2 - B.x1) * interH A B :=
    mul_le_mul_of_nonneg_right hWA (interH_nonneg A B)
  have h2 : inter_area C B ≤ (B.x2 - B.x1) * interH C B :=
    mul_le_mul_of_nonneg_right hWC (interH_nonneg C B)
  have h3 : (B.x2 - B.x1) * interH A B + (B.x2 - B.x1) * interH C B ≤
      (B.x2 - B.x1) * (B.y2 - B.y1) := by
    rw [← mul_add]
    exact mul_le_mul_of_nonneg_left hH (by linarith)
  unfold boxArea
  linarith

theorem sep_of_inter_zero {A C : Box} (h : inter_area A C = 0)
    (hAx : A.x1 < A.x2) (hAy : A.y1 < A.y2)
    (hCx : C.x1 < C.x2) (hCy : C.y1 < C.y2) :
    (A.x2 ≤ C.x1 ∨ C.x2 ≤ A.x1) ∨ (A.y2 ≤ C.y1 ∨ C.y2 ≤ A.y1) := by
  unfold inter_area at h
  rcases mul_eq_zero.mp h with hw | hh
  · left
    unfold interW at hw
    have ht : min A.x2 C.x2 - max A.x1 C.x1 ≤ 0 := by
      by_contra hlt
      push_neg at hlt
      rw [max_eq_right (le_of_lt hlt)] at hw
      linarith
    by_contra hcon
    push_neg at hcon
    obtain ⟨h1, h2⟩ := hcon
    have hmax : max A.x1 C.x1 < min A.x2 C.x2 := by
      rw [max_lt_iff, lt_min_iff, lt_min_iff]
      exact ⟨⟨hAx, h2⟩, ⟨h1, hCx⟩⟩
    linarith
  · right
    unfold interH at hh
    have ht : min A.y2 C.y2 - max A.y1 C.y1 ≤ 0 := by
      by_contra hlt
      push_neg at hlt
      rw [max_eq_right (le_of_lt hlt)] at hh
      linarith
    by_contra hcon
    push_neg at hcon
    obtain ⟨h1, h2⟩ := hcon
    have hmax : max A.y1 C.y1 < min A.y2 C.y2 := by
      rw [max_lt_iff, lt_min_iff, lt_min_iff]
      exact ⟨⟨hAy, h2⟩, ⟨h1, hCy⟩⟩
    linarith

/-! ## Claim theorems -/

/-- Claim C1 (code bug): the spec demands `total_value = Σ value * count`
over `coin_counts`, equal to `3.00` in the §8 scenario; the code instead
sums `float(detection["class"]) / 100` over ALL raw detections (line 72),
duplicates included, and reports `4.00` for that scenario even though the
accepted counts are one 1.00 coin and one 2.00 coin (value `3.00`). -/
theorem C1_total_value_bug :
    handle_photo .noCaption scenario = ⟨false, some ⟨4, 2, [(2, 1), (1, 1)], none⟩⟩ ∧
    countsValue [(2, 1), (1, 1)] = 3 ∧ (4 : ℚ) ≠ 3 := by
  refine ⟨?_, by norm_num [countsValue], by norm_num⟩
  norm_num [handle_photo, draw_detections, drawLoop, drawStep, checkOverlap, calculate_iou,
    inter_area, interW, interH, union_area, boxArea, detBox, updateCounts, rawTotalValue,
    scenario, scn1, scn2, scn3, sortDesc, List.insertionSort, List.orderedInsert, descLex,
    min_def, max_def]

/-- Claim C3, counterexample: a batch with one malformed record (`dBad`,
unparsable class) followed by a well-formed record (`dGood`) does not skip
just the bad record — the whole request fails (no results at all),
contrary to the claim that the rest of the batch is still processed and
the request completes. -/
theorem C3_counterexample :
    handle_photo .noCaption [dBad, dGood] = ⟨false, none⟩ := by
  norm_num [handle_photo, draw_detections, drawLoop, drawStep, checkOverlap, calculate_iou,
    inter_area, interW, interH, union_area, boxArea, detBox, updateCounts, rawTotalValue,
    dBad, dGood, min_def, max_def]

/-- Claim C3, amended: a detection record with an unparsable denomination
aborts the whole request (the `ValueError` is caught only by the
request-level handler, which reports a single generic failure and no
results); and a record with non-positive width/height is not treated as
an error at all — it is processed and counted like any other (`dNeg`,
width `-2`, is accepted and counted). -/
theorem C3_amended_abort :
    (∀ cap dets, (∃ d ∈ dets, d.cls = none) →
       (handle_photo cap dets).results = none) ∧
    draw_detections [dNeg] = .ok (1, [(1, 1)]) := by
  constructor
  · intro cap dets h
    exact handle_photo_error cap (rawTotalValue_error h)
  · norm_num [draw_detections, drawLoop, drawStep, checkOverlap, calculate_iou,
      inter_area, interW, interH, union_area, boxArea, detBox, updateCounts, dNeg,
      min_def, max_def]

/-- Claim C3, witness for the amended theorem at a concrete batch. -/
theorem C3_amended_witness :
    (handle_photo .unparsable [dBad]).results = none :=
  C3_amended_abort.1 .unparsable [dBad] ⟨dBad, by simp, rfl⟩

/-- Claim C4, counterexample: a declared value that parses to `0`
(caption `"0"`) yields a completed request with NO estimated total
(the code's truthiness test `if custom_value:` drops it), contradicting
the claim that whenever the string parses the reported estimated_total
equals `total_coins * declared_value`. -/
theorem C4_counterexample :
    handle_photo (.parsed 0) [dGood] = ⟨false, some ⟨1, 1, [(1, 1)], none⟩⟩ := by
  norm_num [handle_photo, draw_detections, drawLoop, drawStep, checkOverlap, calculate_iou,
    inter_area, interW, interH, union_area, boxArea, detBox, updateCounts, rawTotalValue,
    dGood, sortDesc, List.insertionSort, List.orderedInsert, descLex, min_def, max_def]

/-- Claim C4, amended: an unparsable declared value produces the warning,
no estimate, and the request still completes with detector-derived
results; a declared value that parses to a NON-ZERO `v` produces
`estimated_total = total_coins * v` alongside the detector-derived
total (a value parsing to `0` produces no estimate, see C10). -/
theorem C4_amended_estimate :
    (∀ dets tc cc tv, draw_detections dets = .ok (tc, cc) →
       rawTotalValue dets = .ok tv →
       handle_photo .unparsable dets = ⟨true, some ⟨tv, tc, sortDesc cc, none⟩⟩) ∧
    (∀ dets tc cc tv v, draw_detections dets = .ok (tc, cc) →
       rawTotalValue dets = .ok tv → v ≠ 0 →
       handle_photo (.parsed v) dets =
         ⟨false, some ⟨tv, tc, sortDesc cc, some ((tc : ℚ) * v)⟩⟩) := by
  constructor
  · intro dets tc cc tv h1 h2
    simpa using handle_photo_ok .unparsable h1 h2
  · intro dets tc cc tv v h1 h2 hv
    simpa [hv] using handle_photo_ok (.parsed v) h1 h2

/-- Claim C4, witness for the amended theorem: caption `"abc"` and
caption `"0.10"` on the single-coin batch `[dGood]`. -/
theorem C4_amended_witness :
    handle_photo .unparsable [dGood] = ⟨true, some ⟨1, 1, [(1, 1)], none⟩⟩ ∧
    handle_photo (.parsed (1/10)) [dGood] =
      ⟨false, some ⟨1, 1, [(1, 1)], some (1/10)⟩⟩ := by
  have hdraw : draw_detections [dGood] = .ok (1, [(1, 1)]) := by
    norm_num [draw_detections, drawLoop, drawStep, checkOverlap, detBox, updateCounts, dGood]
  have hraw : rawTotalValue [dGood] = .ok 1 := by
    norm_num [rawTotalValue, dGood]
  have h1 := C4_amended_estimate.1 [dGood] 1 [(1, 1)] 1 hdraw hraw
  have h2 := C4_amended_estimate.2 [dGood] 1 [(1, 1)] 1 (1/10) hdraw hraw (by norm_num)
  norm_num [sortDesc, List.insertionSort, List.orderedInsert] at h1 h2
  exact ⟨h1, h2⟩

/-- Claim C5: for every input detection list on which `draw_detections`
completes, the sum of the per-denomination counts equals `total_coins`;
each accepted detection bumps `total_coins` by one and exactly one entry
of `coin_counts` by one. -/
theorem C5_counts_sum :
    ∀ dets tc cc, draw_detections dets = .ok (tc, cc) → countsSum cc = tc := by
  intro dets tc cc h
  unfold draw_detections at h
  cases hl : drawLoop ⟨0, [], []⟩ dets with
  | error e => rw [hl] at h; exact absurd h (by simp)
  | ok s =>
    rw [hl] at h
    injection h with h
    simp only [Prod.mk.injEq] at h
    obtain ⟨h1, h2⟩ := h
    subst h1
    subst h2
    exact drawLoop_sum hl (by simp [countsSum])

/-- Claim C5, witness at the §8 scenario. -/
theorem C5_counts_sum_witness : countsSum [(1, 1), (2, 1)] = 2 :=
  C5_counts_sum scenario 2 [(1, 1), (2, 1)] (by
    norm_num [draw_detections, drawLoop, drawStep, checkOverlap, calculate_iou,
      inter_area, interW, interH, union_area, boxArea, detBox, updateCounts,
      scenario, scn1, scn2, scn3, min_def, max_def])

/-- Claim C7: for boxes with positive width and height, the IoU of a box
with itself is exactly `1`; the IoU of two non-overlapping such boxes
(intersection area `0`) is exactly `0`; and the intersection area is
clamped at `0`, never negative, for ALL boxes. -/
theorem C7_iou_self_disjoint :
    (∀ b : Box, b.x1 < b.x2 → b.y1 < b.y2 → calculate_iou b b = some 1) ∧
    (∀ b1 b2 : Box, b1.x1 < b1.x2 → b1.y1 < b1.y2 → b2.x1 < b2.x2 →
       b2.y1 < b2.y2 → inter_area b1 b2 = 0 → calculate_iou b1 b2 = some 0) ∧
    (∀ b1 b2 : Box, 0 ≤ inter_area b1 b2) := by
  refine ⟨fun b hx hy => iou_self_proper hx hy, ?_, inter_area_nonneg⟩
  intro b1 b2 h1x h1y h2x h2y hint
  have ha1 : 0 < boxArea b1 := mul_pos (by linarith) (by linarith)
  have ha2 : 0 < boxArea b2 := mul_pos (by linarith) (by linarith)
  have hu : union_area b1 b2 = boxArea b1 + boxArea b2 := by
    unfold union_area; rw [hint]; ring
  unfold calculate_iou
  rw [hu, hint, if_neg (by positivity), zero_div]

/-- Claim C7, witness: the unit box against itself and against a far
disjoint box. -/
theorem C7_witness :
    calculate_iou ⟨0, 0, 1, 1⟩ ⟨0, 0, 1, 1⟩ = some 1 ∧
    calculate_iou ⟨0, 0, 1, 1⟩ ⟨5, 5, 6, 6⟩ = some 0 :=
  ⟨C7_iou_self_disjoint.1 ⟨0, 0, 1, 1⟩ (by norm_num) (by norm_num),
   C7_iou_self_disjoint.2.1 ⟨0, 0, 1, 1⟩ ⟨5, 5, 6, 6⟩ (by norm_num) (by norm_num)
     (by norm_num) (by norm_num)
     (by norm_num [inter_area, interW, interH, min_def, max_def])⟩

/-- Claim C8: every results listing is sorted by denomination value in
the single fixed order of the code (`sorted(..., reverse=True)`:
descending), and the sorted listing depends only on the multiset of
`coin_counts` items, so two runs over the same deduplicated set produce
the same listing. -/
theorem C8_listing_sorted :
    (∀ cap dets r, (handle_photo cap dets).results = some r →
       r.coin_listing.Sorted descLex) ∧
    (∀ l1 l2 : List (ℚ × ℕ), l1.Perm l2 → sortDesc l1 = sortDesc l2) := by
  constructor
  · intro cap dets r h
    unfold handle_photo at h
    cases hdraw : draw_detections dets with
    | error e => rw [hdraw] at h; simp at h
    | ok p =>
      obtain ⟨tc, cc⟩ := p
      rw [hdraw] at h
      cases hraw : rawTotalValue dets with
      | error e => rw [hraw] at h; simp at h
      | ok tv =>
        rw [hraw] at h
        simp only [Option.some_inj] at h
        have : r.coin_listing = sortDesc cc := by rw [← h]
        rw [this]
        exact List.sorted_insertionSort descLex cc
  · intro l1 l2 hp
    refine List.eq_of_perm_of_sorted ?_ (List.sorted_insertionSort descLex l1)
      (List.sorted_insertionSort descLex l2)
    exact (List.perm_insertionSort descLex l1).trans
      (hp.trans (List.perm_insertionSort descLex l2).symm)

/-- Claim C8, witness: two permuted counts listings sort identically. -/
theorem C8_witness : sortDesc [(1, 1), (2, 1)] = sortDesc [(2, 1), (1, 1)] :=
  C8_listing_sorted.2 [(1, 1), (2, 1)] [(2, 1), (1, 1)]
    (List.Perm.swap (2, 1) (1, 1) [])

/-- Claim C9, counterexample: `calculate_iou` can raise even when one box
has strictly positive area — pair the proper box `[0,0,5,1]` (area `5`)
with the x-inverted box `[5,0,0,1]` (area `-5`): the union area is `0`
and the division raises, so positive area of at least one box is NOT the
precondition that makes the division safe. -/
theorem C9_counterexample :
    0 < boxArea ⟨0, 0, 5, 1⟩ ∧ calculate_iou ⟨0, 0, 5, 1⟩ ⟨5, 0, 0, 1⟩ = none := by
  constructor <;>
    norm_num [boxArea, calculate_iou, union_area, inter_area, interW, interH,
      min_def, max_def]

/-- Claim C9, amended: the division has no zero guard — any pair of
zero-area boxes with zero-area intersection has union area `0` and
raises `ZeroDivisionError`; the division is safe under the precondition
that both boxes have non-negative area and at least one has positive
area. -/
theorem C9_amended_guard :
    (∀ b1 b2 : Box, boxArea b1 = 0 → boxArea b2 = 0 → inter_area b1 b2 = 0 →
       calculate_iou b1 b2 = none) ∧
    (∀ b1 b2 : Box, 0 ≤ boxArea b1 → 0 ≤ boxArea b2 →
       0 < boxArea b1 + boxArea b2 → ∃ q, calculate_iou b1 b2 = some q) := by
  constructor
  · intro b1 b2 h1 h2 hi
    unfold calculate_iou union_area
    rw [h1, h2, hi]
    simp
  · intro b1 b2 h1 h2 hsum
    have hu : 0 < union_area b1 b2 := by
      rcases (inter_area_nonneg b1 b2).lt_or_eq with hpos | hzero
      · obtain ⟨hw, hh⟩ := inter_pos_parts hpos
        obtain ⟨h1x, h2x⟩ := interW_pos_proper hw
        obtain ⟨h1y, h2y⟩ := interH_pos_proper hh
        have hle := inter_le_area_left b1 b2 (le_of_lt h1x) (le_of_lt h1y)
        have ha2 : 0 < boxArea b2 := mul_pos (by linarith) (by linarith)
        unfold union_area
        linarith
      · unfold union_area
        rw [← hzero]
        linarith
    exact ⟨_, by unfold calculate_iou; rw [if_neg (ne_of_gt hu)]⟩

/-- Claim C9, witness for the amended theorem: two degenerate width-zero
boxes raise; a proper box against itself divides safely. -/
theorem C9_amended_witness :
    calculate_iou ⟨0, 0, 0, 10⟩ ⟨5, 5, 5, 15⟩ = none ∧
    ∃ q, calculate_iou ⟨0, 0, 1, 1⟩ ⟨0, 0, 1, 1⟩ = some q :=
  ⟨C9_amended_guard.1 ⟨0, 0, 0, 10⟩ ⟨5, 5, 5, 15⟩ (by norm_num [boxArea])
     (by norm_num [boxArea])
     (by norm_num [inter_area, interW, interH, min_def, max_def]),
   C9_amended_guard.2 ⟨0, 0, 1, 1⟩ ⟨0, 0, 1, 1⟩ (by norm_num [boxArea])
     (by norm_num [boxArea]) (by norm_num [boxArea])⟩

/-- Claim C10: a declared value parsing to exactly `0` produces a
completed reply with no warning and no estimate, because the code's
truthiness test `if custom_value:` treats `0.0` like `None`. -/
theorem C10_zero_declared :
    ∀ dets tc cc tv, draw_detections dets = .ok (tc, cc) →
      rawTotalValue dets = .ok tv →
      handle_photo (.parsed 0) dets = ⟨false, some ⟨tv, tc, sortDesc cc, none⟩⟩ := by
  intro dets tc cc tv h1 h2
  simpa using handle_photo_ok (.parsed 0) h1 h2

/-- Claim C10, witness at the §8 scenario. -/
theorem C10_witness :
    handle_photo (.parsed 0) scenario = ⟨false, some ⟨4, 2, [(2, 1), (1, 1)], none⟩⟩ := by
  have h := C10_zero_declared scenario 2 [(1, 1), (2, 1)] 4
    (by norm_num [draw_detections, drawLoop, drawStep, checkOverlap, calculate_iou,
      inter_area, interW, interH, union_area, boxArea, detBox, updateCounts,
      scenario, scn1, scn2, scn3, min_def, max_def])
    (by norm_num [rawTotalValue, scenario, scn1, scn2, scn3])
  norm_num [sortDesc, List.insertionSort, List.orderedInsert, descLex] at h
  exact h

/-- Claim C2: the overlap resolver processes detections in input order;
given that an iteration completes without an exception, the detection is
discarded (state unchanged) iff its IoU with some already-accepted box
exceeds `0.5`, and otherwise its box is appended; and for two identical
well-formed detections (positive extents, parsable class) exactly one is
accepted. -/
theorem C2_first_seen_wins :
    (∀ box bs ov, checkOverlap box bs = .ok ov →
       (ov = true ↔ ∃ b ∈ bs, ∃ q, calculate_iou box b = some q ∧ 1/2 < q)) ∧
    (∀ s d s', drawStep s d = .ok s' →
       ((∃ b ∈ s.detected_boxes, ∃ q,
           calculate_iou (detBox d) b = some q ∧ 1/2 < q) → s' = s) ∧
       (¬ (∃ b ∈ s.detected_boxes, ∃ q,
           calculate_iou (detBox d) b = some q ∧ 1/2 < q) →
         s'.detected_boxes = s.detected_boxes ++ [detBox d])) ∧
    (∀ d c, 0 < d.width → 0 < d.height → d.cls = some c →
       draw_detections [d, d] = .ok (1, [(c / 100, 1)])) := by
  refine ⟨fun box bs ov h => checkOverlap_iff h, ?_, ?_⟩
  · intro s d s' h
    unfold drawStep at h
    cases hov : checkOverlap (detBox d) s.detected_boxes with
    | error e => rw [hov] at h; exact absurd h (by simp)
    | ok b =>
      rw [hov] at h
      have hiff := checkOverlap_iff hov
      cases b with
      | true =>
        simp only at h
        injection h with h
        subst h
        exact ⟨fun _ => rfl, fun hne => absurd (hiff.mp rfl) hne⟩
      | false =>
        simp only at h
        cases hc : d.cls with
        | none => rw [hc] at h; exact absurd h (by simp)
        | some cents =>
          rw [hc] at h
          injection h with h
          subst h
          constructor
          · intro hex
            exact absurd (hiff.mpr hex) (by simp)
          · intro _
            rfl
  · intro d c hw hh hcls
    have hself : calculate_iou (detBox d) (detBox d) = some 1 :=
      iou_self_proper (detBox_proper_x hw) (detBox_proper_y hh)
    have h1 : drawStep ⟨0, [], []⟩ d = .ok ⟨1, [detBox d], [(c / 100, 1)]⟩ := by
      simp [drawStep, checkOverlap, hcls, updateCounts]
    have h2 : drawStep ⟨1, [detBox d], [(c / 100, 1)]⟩ d =
        .ok ⟨1, [detBox d], [(c / 100, 1)]⟩ := by
      norm_num [drawStep, checkOverlap, hself]
    simp [draw_detections, drawLoop, h1, h2]

/-- Claim C2, witness: the identical-pair conjunct at the concrete
detection `dUnit` (class `"100"`, confidence irrelevant). -/
theorem C2_witness : draw_detections [dUnit, dUnit] = .ok (1, [(1, 1)]) := by
  have h := C2_first_seen_wins.2.2 dUnit 100 (by norm_num [dUnit])
    (by norm_num [dUnit]) rfl
  norm_num at h
  exact h

/-- Claim C6, counterexample: the 3-box chain demanded by the claim — with
IoU(A,B) = 0.6, IoU(B,C) = 0.6 and IoU(A,C) = 0.0 exactly — cannot exist
for any axis-aligned boxes: IoU 0.6 forces `inter = (3/8)(area₁ + area₂)`,
and the two disjoint pieces `A ∩ B` and `C ∩ B` cannot both fit inside `B`
under those constraints. -/
theorem C6_counterexample :
    ¬ ∃ A B C : Box, calculate_iou A B = some (3/5) ∧
      calculate_iou B C = some (3/5) ∧ calculate_iou A C = some 0 := by
  rintro ⟨A, B, C, hAB, hBC, hAC⟩
  obtain ⟨hUab, hIab⟩ := iou_eq_of_some hAB
  obtain ⟨hUbc, hIbc⟩ := iou_eq_of_some hBC
  obtain ⟨hUac, hIac⟩ := iou_eq_of_some hAC
  have hacz : inter_area A C = 0 := by rw [hIac]; ring
  have hab_pos : 0 < inter_area A B := by
    rcases (inter_area_nonneg A B).lt_or_eq with h | h
    · exact h
    · exfalso
      apply hUab
      rw [← h] at hIab
      linarith
  have hbc_pos : 0 < inter_area B C := by
    rcases (inter_area_nonneg B C).lt_or_eq with h | h
    · exact h
    · exfalso
      apply hUbc
      rw [← h] at hIbc
      linarith
  obtain ⟨hwAB, hhAB⟩ := inter_pos_parts hab_pos
  obtain ⟨hAx, hBx⟩ := interW_pos_proper hwAB
  obtain ⟨hAy, hBy⟩ := interH_pos_proper hhAB
  obtain ⟨hwBC, hhBC⟩ := inter_pos_parts hbc_pos
  obtain ⟨hBx', hCx⟩ := interW_pos_proper hwBC
  obtain ⟨hBy', hCy⟩ := interH_pos_proper hhBC
  have haB : 0 < boxArea B := mul_pos (by linarith) (by linarith)
  have hab_le_A : inter_area A B ≤ boxArea A :=
    inter_le_area_left A B (le_of_lt hAx) (le_of_lt hAy)
  have hbc_le_C : inter_area B C ≤ boxArea C :=
    inter_le_area_right B C (le_of_lt hCx) (le_of_lt hCy)
  have heq1 : 8 * inter_area A B = 3 * (boxArea A + boxArea B) := by
    unfold union_area at hIab
    linarith
  have heq2 : 8 * inter_area B C = 3 * (boxArea B + boxArea C) := by
    unfold union_area at hIbc
    linarith
  have hcb_pos : 0 < inter_area C B := by
    rw [inter_area_comm]
    exact hbc_pos
  have hbound : inter_area A B + inter_area B C ≤ boxArea B := by
    rcases sep_of_inter_zero hacz hAx hAy hCx hCy with (h | h) | (h | h)
    · have hs := inter_sum_le_of_sep_x h (le_of_lt hBy) hab_pos hcb_pos
      rw [inter_area_comm C B] at hs
      linarith
    · have hs := inter_sum_le_of_sep_x h (le_of_lt hBy) hcb_pos hab_pos
      rw [inter_area_comm C B] at hs
      linarith
    · have hs := inter_sum_le_of_sep_y h (le_of_lt hBx) hab_pos hcb_pos
      rw [inter_area_comm C B] at hs
      linarith
    · have hs := inter_sum_le_of_sep_y h (le_of_lt hBx) hcb_pos hab_pos
      rw [inter_area_comm C B] at hs
      linarith
  linarith

/-- Claim C6, amended: every accepted box has IoU at most `0.5` against
every box accepted before it (pairwise in processing order); the chain
counterexample to transitivity holds at the closest geometrically
realisable instance — IoU(A,B) = 0.6, IoU(B,C) = 0.6, IoU(A,C) = 1/3
(non-zero but below the threshold; an exactly-zero IoU(A,C) is impossible,
see the counterexample) — where processing A, B, C accepts A and C and
rejects B. -/
theorem C6_amended_pairwise :
    (∀ dets s, drawLoop ⟨0, [], []⟩ dets = .ok s →
       s.detected_boxes.Pairwise
         (fun e l => ∃ q, calculate_iou l e = some q ∧ q ≤ 1/2)) ∧
    (calculate_iou boxA boxB = some (3/5) ∧
     calculate_iou boxB boxC = some (3/5) ∧
     calculate_iou boxA boxC = some (1/3) ∧
     drawLoop ⟨0, [], []⟩ [dA, dB, dC] = .ok ⟨2, [boxA, boxC], [(1, 2)]⟩) := by
  constructor
  · intro dets s h
    exact drawLoop_pairwise h (by simp)
  · refine ⟨?_, ?_, ?_, ?_⟩ <;>
      norm_num [drawLoop, drawStep, checkOverlap, calculate_iou, inter_area, interW,
        interH, union_area, boxArea, detBox, updateCounts, dA, dB, dC, boxA, boxB, boxC,
        min_def, max_def]

/-- Claim C6, witness: the pairwise invariant instantiated on the
accepted set of the concrete chain run. -/
theorem C6_amended_witness :
    List.Pairwise (fun e l => ∃ q, calculate_iou l e = some q ∧ q ≤ 1/2)
      [boxA, boxC] :=
  C6_amended_pairwise.1 [dA, dB, dC] ⟨2, [boxA, boxC], [(1, 2)]⟩ (by
    norm_num [drawLoop, drawStep, checkOverlap, calculate_iou, inter_area, interW,
      interH, union_area, boxArea, detBox, updateCounts, dA, dB, dC, boxA, boxB, boxC,
      min_def, max_def])
